import Mathlib

/-!
Shallow embedding of the MicroHH wind-farm / actuator-disk turbine model
(`turbine.h` / turbine implementation and `windfarm.h` / `windfarm.cxx`).

Numbers of type `TF` (float/double) are idealised as an arbitrary linear
ordered field `α`; the transcendental library functions (`std::exp`,
`std::cos`, `std::sin`, `std::atan2`, `std::sqrt`) and the constant `M_PI`
are abstracted into a record of operations `MathOps α`, so that every
definition is executable and can be evaluated on concrete rational inputs.
Decimal literals of the source (`0.5`, `0.25`, `1.5`, `0.2`) are written as
the exact fractions they denote.
-/

/-- Abstracted math library: the transcendental functions and `M_PI`
used by the turbine model. -/
structure MathOps (α : Type) where
  exp : α → α
  cos : α → α
  sin : α → α
  atan2 : α → α → α
  sqrt : α → α
  pi : α

/-- Grid metadata consumed from the host solver (`grid.get_grid_data()`):
coordinate sequences, per-axis index bounds, strides for flattened
indexing, uniform horizontal spacing and the horizontal domain extents. -/
structure GridData (α : Type) where
  x : Nat → α
  y : Nat → α
  z : Nat → α
  istart : Nat
  iend : Nat
  jstart : Nat
  jend : Nat
  kstart : Nat
  kend : Nat
  jstride : Nat
  kstride : Nat
  dx : α
  xsize : α
  ysize : α

/-- The two horizontal velocity arrays of the flow field
(`fields.mp.at("u")->fld` and `fields.mp.at("v")->fld`), addressed by the
flattened index `i + j*jstride + k*kstride`. -/
structure FlowState (α : Type) where
  u : Nat → α
  v : Nat → α

/-- The `[turbine]` configuration-section values read by the `Turbine`
constructor from the input file. -/
structure TurbineConfig (α : Type) where
  diam : α
  hhub : α
  ct : α
  cp : α
  tsr : α
  swdynyaw : Bool
  yawperiod : α
  turbstarttime : α

/-- State of one turbine: static configuration, placement, and the runtime
members mutated by `create` / `exec` (yaw, next yaw time, hub level,
footprint index/weight lists, last power). -/
structure Turbine (α : Type) where
  diam : α
  hhub : α
  ct : α
  cp : α
  tsr : α
  swdynyaw : Bool
  yawperiod : α
  turbstarttime : α
  xpos : α
  ypos : α
  yaw : α
  next_yaw : α
  area : α
  k_hub : Nat
  indices : List Nat
  weights : List α
  power : α

variable {α : Type} [LinearOrderedField α]

/-- `Turbine::Turbine`: copy the configuration, override the hub height
when the layout file supplied a positive value, set the position, zero the
yaw, schedule the first yaw update at the start time, and precompute the
rotor disk area `M_PI * diam * diam * 0.25`. -/
def Turbine.init (ops : MathOps α) (cfg : TurbineConfig α) (xin yin hhub_in : α) :
    Turbine α :=
  { diam := cfg.diam
    hhub := if hhub_in > 0 then hhub_in else cfg.hhub
    ct := cfg.ct
    cp := cfg.cp
    tsr := cfg.tsr
    swdynyaw := cfg.swdynyaw
    yawperiod := cfg.yawperiod
    turbstarttime := cfg.turbstarttime
    xpos := xin
    ypos := yin
    yaw := 0
    next_yaw := cfg.turbstarttime
    area := ops.pi * cfg.diam * cfg.diam * (1/4 : α)
    k_hub := 0
    indices := []
    weights := []
    power := 0 }

/-- Linear scan for the index of the coordinate value nearest to `val`
over index range `[s, e)`, keeping the first index achieving a strictly
smaller absolute difference (the tie rule of the source: start at `s`,
update only on `diff < min`).  This is the algorithm of both the
hub-height search in `Turbine::create` and the `nearest_index` lambda in
`Turbine::exec`. -/
def nearest_index (val : α) (arr : Nat → α) (s e : Nat) : Nat :=
  ((List.range' (s+1) (e - (s+1))).foldl
    (fun p i => if |arr i - val| < p.2 then (i, |arr i - val|) else p)
    (s, |arr s - val|)).1

/-- The horizontal cells `(i, j)` scanned by the footprint loop of
`Turbine::create`: `j` from `jstart` to `jend`, and for each `j`, `i` from
`istart` to `iend` (row-major, `j` outer). -/
def grid_cells (gd : GridData α) : List (Nat × Nat) :=
  (List.range' gd.jstart (gd.jend - gd.jstart)).map
    (fun j => (List.range' gd.istart (gd.iend - gd.istart)).map (fun i => (i, j)))
  |>.flatten

/-- Squared horizontal distance `r2 = dx*dx + dy*dy` from the cell centre
`(x[i], y[j])` to the turbine position. -/
def cell_r2 (gd : GridData α) (t : Turbine α) (p : Nat × Nat) : α :=
  let dx := gd.x p.1 - t.xpos
  let dy := gd.y p.2 - t.ypos
  dx * dx + dy * dy

/-- The footprint membership test of `Turbine::create`:
`std::sqrt(r2) <= radius` with `radius = diam * 0.5`. -/
def in_disk (ops : MathOps α) (gd : GridData α) (t : Turbine α) (p : Nat × Nat) : Bool :=
  decide (ops.sqrt (cell_r2 gd t p) ≤ t.diam * (1/2 : α))

/-- The unnormalised Gaussian weight of `Turbine::create`:
`exp(-6*r2/(Delta*Delta))` with filter width `Delta = 1.5*dx` (the
uniform-spacing assumption of the source). -/
def gauss_weight (ops : MathOps α) (gd : GridData α) (t : Turbine α) (p : Nat × Nat) : α :=
  ops.exp ((-6 : α) * cell_r2 gd t p / (((3/2 : α) * gd.dx) * ((3/2 : α) * gd.dx)))

/-- `Turbine::create` proper: locate the vertical level nearest the hub
height, collect every horizontal cell whose centre lies within the rotor
radius, store its flattened index at the hub level together with its
Gaussian weight, and normalise the weights to unit sum when their sum is
positive. -/
def Turbine.create (ops : MathOps α) (gd : GridData α) (t : Turbine α) : Turbine α :=
  let k_hub := nearest_index t.hhub gd.z gd.kstart gd.kend
  let inside := (grid_cells gd).filter (in_disk ops gd t)
  let indices := inside.map (fun p => p.1 + p.2 * gd.jstride + k_hub * gd.kstride)
  let weights := inside.map (gauss_weight ops gd t)
  let wsum := weights.foldl (· + ·) 0
  let weights2 := if wsum > 0 then weights.map (· / wsum) else weights
  { t with k_hub := k_hub, indices := indices, weights := weights2 }

/-- The flattened index sampled by the dynamic-yaw branch of
`Turbine::exec`: nearest grid coordinate, independently per horizontal
axis, to the point one diameter upstream of the turbine along the current
yaw direction, at the hub level. -/
def upstream_idx (ops : MathOps α) (gd : GridData α) (t : Turbine α) : Nat :=
  let xref := t.xpos - t.diam * ops.cos t.yaw
  let yref := t.ypos - t.diam * ops.sin t.yaw
  let iu := nearest_index xref gd.x gd.istart gd.iend
  let ju := nearest_index yref gd.y gd.jstart gd.jend
  iu + ju * gd.jstride + t.k_hub * gd.kstride

/-- The dynamic-yaw branch of `Turbine::exec`: when enabled and due, read
the two velocity components at the upstream sample index, relax the yaw
toward `atan2(vr, ur)` with gain `0.2`, and advance the schedule by the
yaw period; otherwise leave the turbine unchanged. -/
def yaw_update (ops : MathOps α) (gd : GridData α) (t : Turbine α) (fs : FlowState α)
    (time : α) : Turbine α :=
  if t.swdynyaw = true ∧ t.next_yaw ≤ time then
    let idx := upstream_idx ops gd t
    let ur := fs.u idx
    let vr := fs.v idx
    let target := ops.atan2 vr ur
    { t with yaw := t.yaw + (target - t.yaw) * (1/5 : α),
             next_yaw := t.next_yaw + t.yawperiod }
  else t

/-- The disk-averaged velocity loop of `Turbine::exec`: accumulate
`weights[n] * (u[idx]*cos(yaw) + v[idx]*sin(yaw))` over the footprint. -/
def disk_avg (ops : MathOps α) (t : Turbine α) (fs : FlowState α) : α :=
  (t.indices.zip t.weights).foldl
    (fun acc p => acc + p.2 * (fs.u p.1 * ops.cos t.yaw + fs.v p.1 * ops.sin t.yaw)) 0

/-- One iteration of the forcing loop of `Turbine::exec`: with
`f = thrust * weights[n]`, subtract `f*cos(yaw)` from `u[idx]` and
`f*sin(yaw)` from `v[idx]`, in place. -/
def thrust_upd (ops : MathOps α) (yaw thrust : α) (p : Nat × α) (s : FlowState α) :
    FlowState α :=
  { u := Function.update s.u p.1 (s.u p.1 - thrust * p.2 * ops.cos yaw),
    v := Function.update s.v p.1 (s.v p.1 - thrust * p.2 * ops.sin yaw) }

/-- The forcing loop of `Turbine::exec` over the whole footprint
(sequential read-modify-write). -/
def apply_thrust (ops : MathOps α) (yaw thrust : α) (pairs : List (Nat × α))
    (fs : FlowState α) : FlowState α :=
  pairs.foldl (fun s p => thrust_upd ops yaw thrust p s) fs

/-- The body of `Turbine::exec` past the activation gate: optional yaw
update, disk-averaged velocity, thrust `0.5*ct*umean*|umean|`, power
`cp*0.5*umean^3*area` cached in the turbine, and the in-place actuator
forcing of the covered cells. -/
def Turbine.exec_body (ops : MathOps α) (gd : GridData α) (t : Turbine α)
    (fs : FlowState α) (time : α) : Turbine α × FlowState α :=
  let t1 := yaw_update ops gd t fs time
  let umean := disk_avg ops t1 fs
  let thrust := (1/2 : α) * t1.ct * umean * |umean|
  let powloc := t1.cp * (1/2 : α) * umean * umean * umean * t1.area
  let t2 := { t1 with power := powloc }
  let fs2 := apply_thrust ops t2.yaw thrust (t2.indices.zip t2.weights) fs
  (t2, fs2)

/-- `Turbine::exec`: skip entirely while `time < turbstarttime`, otherwise
run the full step body. -/
def Turbine.exec (ops : MathOps α) (gd : GridData α) (t : Turbine α)
    (fs : FlowState α) (time : α) : Turbine α × FlowState α :=
  if time < t.turbstarttime then (t, fs)
  else Turbine.exec_body ops gd t fs time

/-- The `[windfarm]` configuration-section values read by the `Windfarm`
constructor (layout counts/spacings/origin, stagger flag, layout-file
path).  The shared rotor diameter is the `[turbine]` `diam` key, i.e. the
same value as `TurbineConfig.diam`. -/
structure WindfarmConfig (α : Type) where
  nturbrows : Nat
  nturbcols : Nat
  spacingx : α
  spacingy : α
  swstaggered : Bool
  farmlocx : α
  farmlocy : α
  layoutfile : String

/-- Farm state: the ordered turbine collection and the aggregate power
accumulator. -/
structure Windfarm (α : Type) where
  turbines : List (Turbine α)
  farm_power : α

/-- The boundary validation of the `add_turb` lambda in
`Windfarm::create`: the candidate `(x, y, hh)` is rejected when the disk
crosses a horizontal domain edge, all four comparisons strict. -/
def violates_bounds (diam xsize ysize : α) (c : α × α × α) : Bool :=
  decide (c.1 - (1/2 : α) * diam < 0) || decide (c.1 + (1/2 : α) * diam > xsize) ||
  decide (c.2.1 - (1/2 : α) * diam < 0) || decide (c.2.1 + (1/2 : α) * diam > ysize)

/-- Construct and set up the turbine for an accepted candidate, as
`add_turb` does via `emplace_back` followed by `create`. -/
def mk_turbine (ops : MathOps α) (gd : GridData α) (cfg : TurbineConfig α)
    (c : α × α × α) : Turbine α :=
  Turbine.create ops gd (Turbine.init ops cfg c.1 c.2.1 c.2.2)

/-- Process the candidate list of `Windfarm::create` in order: the first
candidate failing the boundary validation throws, leaving the turbines
accepted so far in the collection; an accepted candidate is constructed,
set up, and appended.  Returns the final collection together with the
error message, if any. -/
def add_turbines (ops : MathOps α) (gd : GridData α) (cfg : TurbineConfig α) :
    List (α × α × α) → List (Turbine α) × Option String
  | [] => ([], none)
  | c :: cs =>
      if violates_bounds cfg.diam gd.xsize gd.ysize c then
        ([], some "Turbine near boundary")
      else
        let r := add_turbines ops gd cfg cs
        (mk_turbine ops gd cfg c :: r.1, r.2)

/-- One row of the procedural layout of `Windfarm::create`:
`y = farmlocy + r*spacingy*diam`, and for each column
`x = farmlocx + c*spacingx*diam + offset` with the stagger offset
`0.5*spacingx*diam` applied to odd rows when staggering is on.  The hub
height override passed to `add_turb` is `-1`. -/
def row_candidates (wcfg : WindfarmConfig α) (diam : α) (r : Nat) : List (α × α × α) :=
  (List.range wcfg.nturbcols).map (fun (c : Nat) =>
    let y := wcfg.farmlocy + (r : α) * wcfg.spacingy * diam
    let offset := if wcfg.swstaggered = true ∧ r % 2 = 1 then
        (1/2 : α) * wcfg.spacingx * diam else 0
    let x := wcfg.farmlocx + (c : α) * wcfg.spacingx * diam + offset
    (x, y, (-1 : α)))

/-- Concatenation of the per-row candidate lists in row order, matching
the nested `r`/`c` loops of `Windfarm::create`. -/
def rows_concat {β : Type} (f : Nat → List β) : Nat → List β
  | 0 => []
  | r + 1 => rows_concat f r ++ f r

/-- The full procedural candidate list of `Windfarm::create`. -/
def procedural_candidates (wcfg : WindfarmConfig α) (diam : α) : List (α × α × α) :=
  rows_concat (row_candidates wcfg diam) wcfg.nturbrows

/-- `Windfarm::create`: clear the collection, then either read the layout
file (failing with a message when it cannot be opened; each line yields a
candidate `(x, y, hh)` triple) or generate the procedural layout, and run
the candidates through `add_turb`.  The file system is abstracted as a
map from path to optional parsed line triples (`none` = cannot open). -/
def Windfarm.create (ops : MathOps α) (gd : GridData α) (cfg : TurbineConfig α)
    (wcfg : WindfarmConfig α) (fsys : String → Option (List (α × α × α))) :
    List (Turbine α) × Option String :=
  if wcfg.layoutfile = "" then
    add_turbines ops gd cfg (procedural_candidates wcfg cfg.diam)
  else
    match fsys wcfg.layoutfile with
    | none => ([], some ("Cannot open layout file " ++ wcfg.layoutfile))
    | some ls => add_turbines ops gd cfg ls

/-- Recursive companion of the farm step loop: execute each turbine in
collection order, threading the flow state. -/
def exec_each (ops : MathOps α) (gd : GridData α) (time : α) :
    List (Turbine α) → FlowState α → List (Turbine α) × FlowState α
  | [], fs => ([], fs)
  | t :: ts, fs =>
      let r := Turbine.exec ops gd t fs time
      let rest := exec_each ops gd time ts r.2
      (r.1 :: rest.1, rest.2)

/-- `Windfarm::exec`: reset the aggregate power to zero, then for each
turbine in collection order call its `exec` and add its freshly reported
power (`get_power`) to the aggregate.  The previous `farm_power` of the
input state is discarded by the reset. -/
def Windfarm.exec (ops : MathOps α) (gd : GridData α) (w : Windfarm α)
    (fs0 : FlowState α) (time : α) : Windfarm α × FlowState α :=
  let r := w.turbines.foldl
    (fun (acc : List (Turbine α) × FlowState α × α) t =>
      let s := Turbine.exec ops gd t acc.2.1 time
      (acc.1 ++ [s.1], s.2, acc.2.2 + s.1.power))
    ([], fs0, 0)
  ({ turbines := r.1, farm_power := r.2.2 }, r.2.1)

/-- Concrete rational math operations used to evaluate the model on
explicit inputs (the abstract transcendental slots are filled with simple
total functions). -/
def qOps : MathOps ℚ where
  exp := fun _ => 1
  cos := fun _ => 1
  sin := fun _ => 0
  atan2 := fun v _ => v
  sqrt := fun x => x
  pi := 3

def qGrid : GridData ℚ where
  x := fun i => (i : ℚ)
  y := fun j => (j : ℚ)
  z := fun k => (k : ℚ)
  istart := 0
  iend := 2
  jstart := 0
  jend := 1
  kstart := 0
  kend := 1
  jstride := 2
  kstride := 2
  dx := 1
  xsize := 10
  ysize := 10

/-- A concrete turbine configuration with dynamic yaw enabled. -/
def qCfg : TurbineConfig ℚ where
  diam := 1
  hhub := 0
  ct := 1
  cp := 1
  tsr := 1
  swdynyaw := true
  yawperiod := 1
  turbstarttime := 0

/-- A concrete turbine built by the constructor plus `create` on the grid
above: its footprint is the single cell with flattened index 1. -/
def qTurb : Turbine ℚ := Turbine.create qOps qGrid (Turbine.init qOps qCfg 1 0 (-1))

/-- A concrete flow state. -/
def qFS1 : FlowState ℚ := ⟨fun _ => 1, fun _ => 0⟩

/-- A second flow state that agrees with `qFS1` everywhere except at the
flattened index 0, which lies outside the footprint of `qTurb`. -/
def qFS2 : FlowState ℚ := ⟨fun _ => 1, fun i => if i = 0 then 5 else 0⟩

/-- Agreement of two flow states on a set of flattened indices. -/
def agree_on (L : List Nat) (fs fs2 : FlowState α) : Prop :=
  ∀ j ∈ L, fs.u j = fs2.u j ∧ fs.v j = fs2.v j

/-- The disk-averaged velocity as the specification words it: the sum,
over the footprint, of `weight[n] * (u[idx]*cos(yaw) + v[idx]*sin(yaw))`
at a given yaw angle. -/
def spec_umean (ops : MathOps α) (t : Turbine α) (fs : FlowState α) (yawN : α) : α :=
  ((t.indices.zip t.weights).map
    (fun p => p.2 * (fs.u p.1 * ops.cos yawN + fs.v p.1 * ops.sin yawN))).sum

/-- The thrust as the specification words it: `0.5*ct*v*|v|`. -/
def spec_thrust (ct v : α) : α := (1/2 : α) * ct * v * |v|

/-- A farm configuration in procedural mode (empty layout-file path),
2 rows by 2 columns, staggered. -/
def qWcfg : WindfarmConfig ℚ where
  nturbrows := 2
  nturbcols := 2
  spacingx := 1
  spacingy := 1
  swstaggered := true
  farmlocx := 2
  farmlocy := 2
  layoutfile := ""

/-- The same farm configuration in file mode. -/
def qWcfgFile : WindfarmConfig ℚ := { qWcfg with layoutfile := "layout.txt" }

/-- The turbine configuration with diameter 2 (for the tangency witness). -/
def qCfgD2 : TurbineConfig ℚ := { qCfg with diam := 2 }

/-- A file system on which every path fails to open. -/
def fsysNone : String → Option (List (ℚ × ℚ × ℚ)) := fun _ => none

/-- A file system whose single layout line places a disk of diameter 2
exactly tangent to the left domain edge (`x - 0.5*diam = 0`). -/
def fsysTangent : String → Option (List (ℚ × ℚ × ℚ)) := fun _ => some [(1, 5, -1)]

/-! ### Helper lemmas -/

/-- Folding `+` of mapped values from an accumulator is the accumulator
plus the sum of the mapped list. -/
theorem foldl_add_map {M : Type} [AddCommMonoid M] {β : Type} (f : β → M) :
    ∀ (l : List β) (a : M), l.foldl (fun s x => s + f x) a = a + (l.map f).sum
  | [], a => by simp
  | x :: xs, a => by
    rw [List.foldl_cons, foldl_add_map f xs (a + f x), List.map_cons, List.sum_cons,
      add_assoc]

/-- A pointwise-stronger Boolean predicate filters no fewer elements. -/
theorem length_filter_mono {β : Type} (p q : β → Bool)
    (h : ∀ x, p x = true → q x = true) :
    ∀ l : List β, (l.filter p).length ≤ (l.filter q).length
  | [] => le_refl _
  | x :: xs => by
    have ih := length_filter_mono p q h xs
    by_cases hp : p x = true
    · rw [List.filter_cons_of_pos hp, List.filter_cons_of_pos (h x hp)]
      simpa using ih
    · rw [List.filter_cons_of_neg hp]
      by_cases hq : q x = true
      · rw [List.filter_cons_of_pos hq]
        exact le_trans ih (Nat.le_succ _)
      · rw [List.filter_cons_of_neg hq]
        exact ih

/-- Sum of a list divided elementwise equals the sum divided. -/
theorem sum_map_div (w : α) :
    ∀ l : List α, (l.map (· / w)).sum = l.sum / w
  | [] => by simp
  | x :: xs => by
    rw [List.map_cons, List.sum_cons, List.sum_cons, sum_map_div w xs, add_div]

/-- `apply_thrust` on a cons is `apply_thrust` on the tail from the
once-updated state. -/
theorem apply_thrust_cons (ops : MathOps α) (yaw thrust : α) (p : Nat × α)
    (ps : List (Nat × α)) (fs : FlowState α) :
    apply_thrust ops yaw thrust (p :: ps) fs =
      apply_thrust ops yaw thrust ps (thrust_upd ops yaw thrust p fs) := rfl

/-- `thrust_upd` at the written index, `u` component. -/
theorem thrust_upd_u_same (ops : MathOps α) (yaw thrust : α) (p : Nat × α)
    (s : FlowState α) :
    (thrust_upd ops yaw thrust p s).u p.1 = s.u p.1 - thrust * p.2 * ops.cos yaw := by
  simp [thrust_upd]

/-- `thrust_upd` at the written index, `v` component. -/
theorem thrust_upd_v_same (ops : MathOps α) (yaw thrust : α) (p : Nat × α)
    (s : FlowState α) :
    (thrust_upd ops yaw thrust p s).v p.1 = s.v p.1 - thrust * p.2 * ops.sin yaw := by
  simp [thrust_upd]

/-- `thrust_upd` elsewhere, `u` component. -/
theorem thrust_upd_u_noteq (ops : MathOps α) (yaw thrust : α) (p : Nat × α)
    (s : FlowState α) (j : Nat) (h : j ≠ p.1) :
    (thrust_upd ops yaw thrust p s).u j = s.u j := by
  simp [thrust_upd, Function.update_noteq h]

/-- `thrust_upd` elsewhere, `v` component. -/
theorem thrust_upd_v_noteq (ops : MathOps α) (yaw thrust : α) (p : Nat × α)
    (s : FlowState α) (j : Nat) (h : j ≠ p.1) :
    (thrust_upd ops yaw thrust p s).v j = s.v j := by
  simp [thrust_upd, Function.update_noteq h]

/-- Indices not named by any footprint pair are untouched by the forcing
loop. -/
theorem apply_thrust_untouched (ops : MathOps α) (yaw thrust : α) :
    ∀ (pairs : List (Nat × α)) (fs : FlowState α) (j : Nat),
      j ∉ pairs.map Prod.fst →
      (apply_thrust ops yaw thrust pairs fs).u j = fs.u j ∧
      (apply_thrust ops yaw thrust pairs fs).v j = fs.v j
  | [], _, j, _ => ⟨rfl, rfl⟩
  | p :: ps, fs, j, hj => by
    rw [List.map_cons, List.mem_cons] at hj
    push_neg at hj
    rw [apply_thrust_cons]
    have ih := apply_thrust_untouched ops yaw thrust ps
      (thrust_upd ops yaw thrust p fs) j hj.2
    rw [ih.1, ih.2, thrust_upd_u_noteq ops yaw thrust p fs j hj.1,
      thrust_upd_v_noteq ops yaw thrust p fs j hj.1]
    exact ⟨rfl, rfl⟩

/-- With pairwise-distinct indices, the forcing loop subtracts exactly
`thrust * weight * cos(yaw)` from `u` and `thrust * weight * sin(yaw)`
from `v` at each footprint index. -/
theorem apply_thrust_values (ops : MathOps α) (yaw thrust : α) :
    ∀ (pairs : List (Nat × α)) (fs : FlowState α),
      (pairs.map Prod.fst).Nodup →
      ∀ pr ∈ pairs,
        (apply_thrust ops yaw thrust pairs fs).u pr.1 =
          fs.u pr.1 - thrust * pr.2 * ops.cos yaw ∧
        (apply_thrust ops yaw thrust pairs fs).v pr.1 =
          fs.v pr.1 - thrust * pr.2 * ops.sin yaw
  | [], _, _, pr, hpr => absurd hpr (List.not_mem_nil pr)
  | p :: ps, fs, hnd, pr, hpr => by
    rw [List.map_cons, List.nodup_cons] at hnd
    rw [apply_thrust_cons]
    rcases List.mem_cons.1 hpr with heq | htl
    · subst heq
      have hout := apply_thrust_untouched ops yaw thrust ps
        (thrust_upd ops yaw thrust pr fs) pr.1 hnd.1
      rw [hout.1, hout.2, thrust_upd_u_same, thrust_upd_v_same]
      exact ⟨rfl, rfl⟩
    · have hne : pr.1 ≠ p.1 := by
        intro hcontra
        exact hnd.1 (hcontra ▸ List.mem_map_of_mem Prod.fst htl)
      have ih := apply_thrust_values ops yaw thrust ps
        (thrust_upd ops yaw thrust p fs) hnd.2 pr htl
      rw [ih.1, ih.2, thrust_upd_u_noteq ops yaw thrust p fs pr.1 hne,
        thrust_upd_v_noteq ops yaw thrust p fs pr.1 hne]
      exact ⟨rfl, rfl⟩

/-- The forcing loop preserves agreement of two flow states on any index
set covering all footprint indices. -/
theorem apply_thrust_congr (ops : MathOps α) (yaw thrust : α) (L : List Nat) :
    ∀ (pairs : List (Nat × α)) (fs fs2 : FlowState α),
      (∀ pr ∈ pairs, pr.1 ∈ L) →
      agree_on L fs fs2 →
      agree_on L (apply_thrust ops yaw thrust pairs fs)
        (apply_thrust ops yaw thrust pairs fs2)
  | [], _, _, _, hag => hag
  | p :: ps, fs, fs2, hsub, hag => by
    rw [apply_thrust_cons, apply_thrust_cons]
    refine apply_thrust_congr ops yaw thrust L ps _ _
      (fun pr hpr => hsub pr (List.mem_cons_of_mem p hpr)) ?_
    intro j hj
    have hpL := hsub p (List.mem_cons_self p ps)
    by_cases hje : j = p.1
    · rw [hje, thrust_upd_u_same, thrust_upd_v_same, thrust_upd_u_same, thrust_upd_v_same,
        (hag p.1 hpL).1, (hag p.1 hpL).2]
      exact ⟨rfl, rfl⟩
    · rw [thrust_upd_u_noteq ops yaw thrust p fs j hje,
        thrust_upd_v_noteq ops yaw thrust p fs j hje,
        thrust_upd_u_noteq ops yaw thrust p fs2 j hje,
        thrust_upd_v_noteq ops yaw thrust p fs2 j hje]
      exact hag j hj

/-- The disk-average accumulation only reads the flow at the footprint
pair indices. -/
theorem foldl_umean_congr (cy sy : α) (fs fs2 : FlowState α) :
    ∀ (pairs : List (Nat × α)) (a : α),
      (∀ pr ∈ pairs, fs.u pr.1 = fs2.u pr.1 ∧ fs.v pr.1 = fs2.v pr.1) →
      pairs.foldl (fun acc p => acc + p.2 * (fs.u p.1 * cy + fs.v p.1 * sy)) a =
      pairs.foldl (fun acc p => acc + p.2 * (fs2.u p.1 * cy + fs2.v p.1 * sy)) a
  | [], a, _ => rfl
  | p :: ps, a, h => by
    rw [List.foldl_cons, List.foldl_cons, (h p (List.mem_cons_self p ps)).1,
      (h p (List.mem_cons_self p ps)).2]
    exact foldl_umean_congr cy sy fs fs2 ps _ (fun pr hpr => h pr (List.mem_cons_of_mem p hpr))

/-- The disk-averaged velocity depends only on the flow values at the
footprint indices. -/
theorem disk_avg_congr (ops : MathOps α) (t : Turbine α) (fs fs2 : FlowState α)
    (h : agree_on t.indices fs fs2) : disk_avg ops t fs = disk_avg ops t fs2 := by
  unfold disk_avg
  exact foldl_umean_congr _ _ fs fs2 _ 0
    (fun pr hpr => h pr.1 (List.of_mem_zip hpr).1)

/-- The yaw branch never changes the footprint nor any static parameter:
only `yaw` and `next_yaw` can change. -/
theorem yaw_update_fields (ops : MathOps α) (gd : GridData α) (t : Turbine α)
    (fs : FlowState α) (time : α) :
    (yaw_update ops gd t fs time).indices = t.indices ∧
    (yaw_update ops gd t fs time).weights = t.weights ∧
    (yaw_update ops gd t fs time).ct = t.ct ∧
    (yaw_update ops gd t fs time).cp = t.cp ∧
    (yaw_update ops gd t fs time).area = t.area ∧
    (yaw_update ops gd t fs time).power = t.power ∧
    (yaw_update ops gd t fs time).turbstarttime = t.turbstarttime := by
  unfold yaw_update
  split
  · exact ⟨rfl, rfl, rfl, rfl, rfl, rfl, rfl⟩
  · exact ⟨rfl, rfl, rfl, rfl, rfl, rfl, rfl⟩

/-- The yaw angle of the turbine returned by `exec_body` is the
post-yaw-update angle. -/
theorem exec_body_yaw (ops : MathOps α) (gd : GridData α) (t : Turbine α)
    (fs : FlowState α) (time : α) :
    (Turbine.exec_body ops gd t fs time).1.yaw = (yaw_update ops gd t fs time).yaw := rfl

/-- `exec` never changes the footprint index or weight lists. -/
theorem exec_footprint (ops : MathOps α) (gd : GridData α) (t : Turbine α)
    (fs : FlowState α) (time : α) :
    (Turbine.exec ops gd t fs time).1.indices = t.indices ∧
    (Turbine.exec ops gd t fs time).1.weights = t.weights := by
  unfold Turbine.exec
  split
  · exact ⟨rfl, rfl⟩
  · unfold Turbine.exec_body
    have h := yaw_update_fields ops gd t fs time
    exact ⟨h.1, h.2.1⟩

/-- Invariant of the linear nearest scan: starting from a pair carrying
an index and its distance, the fold returns an index together with its
distance, never increases the carried distance, and ends at a distance no
larger than that of any scanned index. -/
theorem nearest_fold_spec (val : α) (arr : Nat → α) :
    ∀ (l : List Nat) (p0 : Nat × α), p0.2 = |arr p0.1 - val| →
      (l.foldl (fun p i => if |arr i - val| < p.2 then (i, |arr i - val|) else p) p0).2 =
        |arr (l.foldl (fun p i => if |arr i - val| < p.2 then (i, |arr i - val|) else p) p0).1 - val| ∧
      (l.foldl (fun p i => if |arr i - val| < p.2 then (i, |arr i - val|) else p) p0).2 ≤ p0.2 ∧
      ∀ i ∈ l,
        (l.foldl (fun p i => if |arr i - val| < p.2 then (i, |arr i - val|) else p) p0).2 ≤
          |arr i - val|
  | [], p0, h0 => ⟨h0, le_refl _, fun i hi => absurd hi (List.not_mem_nil i)⟩
  | i0 :: l, p0, h0 => by
    rw [List.foldl_cons]
    by_cases hlt : |arr i0 - val| < p0.2
    · rw [if_pos hlt]
      have ih := nearest_fold_spec val arr l (i0, |arr i0 - val|) rfl
      refine ⟨ih.1, le_trans ih.2.1 (le_of_lt hlt), ?_⟩
      intro i hi
      rcases List.mem_cons.1 hi with heq | htl
      · rw [heq]
        exact ih.2.1
      · exact ih.2.2 i htl
    · rw [if_neg hlt]
      have ih := nearest_fold_spec val arr l p0 h0
      refine ⟨ih.1, ih.2.1, ?_⟩
      intro i hi
      rcases List.mem_cons.1 hi with heq | htl
      · rw [heq]
        exact le_trans ih.2.1 (le_of_not_lt hlt)
      · exact ih.2.2 i htl

/-- The linear scan of the source really does return a nearest index:
its coordinate distance to `val` is no larger than that of any index in
`[s, e)`. -/
theorem nearest_index_min (val : α) (arr : Nat → α) (s e i : Nat)
    (hs : s ≤ i) (he : i < e) :
    |arr (nearest_index val arr s e) - val| ≤ |arr i - val| := by
  unfold nearest_index
  have h := nearest_fold_spec val arr (List.range' (s+1) (e - (s+1)))
    (s, |arr s - val|) rfl
  rcases Nat.eq_or_lt_of_le hs with heq | hlt
  · rw [← h.1, ← heq]
    exact h.2.1
  · rw [← h.1]
    refine h.2.2 i ?_
    rw [List.mem_range'_1]
    omega

/-- Unfolding lemma for the farm step loop: the fold appends the stepped
turbines in order, threads the flow state left to right, and adds each
freshly reported power to the accumulator. -/
theorem windfarm_foldl_spec (ops : MathOps α) (gd : GridData α) (time : α) :
    ∀ (ts : List (Turbine α)) (acc : List (Turbine α)) (fs : FlowState α) (p : α),
      ts.foldl
        (fun (a : List (Turbine α) × FlowState α × α) t =>
          let s := Turbine.exec ops gd t a.2.1 time
          (a.1 ++ [s.1], s.2, a.2.2 + s.1.power))
        (acc, fs, p) =
      (acc ++ (exec_each ops gd time ts fs).1, (exec_each ops gd time ts fs).2,
        p + (((exec_each ops gd time ts fs).1.map (fun t => t.power)).sum))
  | [], acc, fs, p => by simp [exec_each]
  | t :: ts, acc, fs, p => by
    rw [List.foldl_cons]
    have ih := windfarm_foldl_spec ops gd time ts
      (acc ++ [(Turbine.exec ops gd t fs time).1])
      (Turbine.exec ops gd t fs time).2
      (p + (Turbine.exec ops gd t fs time).1.power)
    simp only [exec_each] at ih ⊢
    rw [ih]
    simp [add_assoc]

/-- `add_turbines` keeps exactly the turbines built from the longest
prefix of candidates passing the boundary validation. -/
theorem add_turbines_fst (ops : MathOps α) (gd : GridData α) (cfg : TurbineConfig α) :
    ∀ cs : List (α × α × α),
      (add_turbines ops gd cfg cs).1 =
        ((cs.takeWhile (fun c => !violates_bounds cfg.diam gd.xsize gd.ysize c)).map
          (mk_turbine ops gd cfg))
  | [] => rfl
  | c :: cs => by
    rw [add_turbines]
    by_cases hv : violates_bounds cfg.diam gd.xsize gd.ysize c = true
    · rw [if_pos hv]
      simp [List.takeWhile_cons, hv]
    · rw [if_neg hv]
      rw [Bool.not_eq_true] at hv
      simp only [List.takeWhile_cons, hv, Bool.not_false, if_pos, List.map_cons]
      rw [add_turbines_fst ops gd cfg cs]

/-- `add_turbines` reports the boundary error iff some candidate fails
the validation. -/
theorem add_turbines_snd (ops : MathOps α) (gd : GridData α) (cfg : TurbineConfig α) :
    ∀ cs : List (α × α × α),
      (add_turbines ops gd cfg cs).2 =
        (if cs.all (fun c => !violates_bounds cfg.diam gd.xsize gd.ysize c) then none
         else some "Turbine near boundary")
  | [] => rfl
  | c :: cs => by
    rw [add_turbines]
    by_cases hv : violates_bounds cfg.diam gd.xsize gd.ysize c = true
    · rw [if_pos hv]
      simp [List.all_cons, hv]
    · rw [if_neg hv]
      rw [Bool.not_eq_true] at hv
      have ih := add_turbines_snd ops gd cfg cs
      cases hall : cs.all (fun c => !violates_bounds cfg.diam gd.xsize gd.ysize c) with
      | false =>
        rw [hall] at ih
        simp only [List.all_cons, hv, hall, Bool.not_false, Bool.true_and] at ih ⊢
        rw [ih]
      | true =>
        rw [hall] at ih
        simp only [List.all_cons, hv, hall, Bool.not_false, Bool.true_and] at ih ⊢
        rw [ih]

/-- The weight list stored by `create`, with the running-sum fold
rewritten as a list sum: it is the `gauss_weight` list over the cells
inside the disk, divided by its total when that total is positive. -/
theorem create_weights_eq (ops : MathOps α) (gd : GridData α) (t : Turbine α) :
    (Turbine.create ops gd t).weights =
      (if (((grid_cells gd).filter (in_disk ops gd t)).map (gauss_weight ops gd t)).sum > 0
       then (((grid_cells gd).filter (in_disk ops gd t)).map (gauss_weight ops gd t)).map
         (· / (((grid_cells gd).filter (in_disk ops gd t)).map (gauss_weight ops gd t)).sum)
       else ((grid_cells gd).filter (in_disk ops gd t)).map (gauss_weight ops gd t)) := by
  simp only [Turbine.create]
  rw [← List.sum_eq_foldl]

/-- The index list stored by `create`. -/
theorem create_indices_eq (ops : MathOps α) (gd : GridData α) (t : Turbine α) :
    (Turbine.create ops gd t).indices =
      ((grid_cells gd).filter (in_disk ops gd t)).map
        (fun p => p.1 + p.2 * gd.jstride +
          (nearest_index t.hhub gd.z gd.kstart gd.kend) * gd.kstride) := rfl

/-- `create` does not move the turbine nor change its static
parameters. -/
theorem create_fields (ops : MathOps α) (gd : GridData α) (t : Turbine α) :
    (Turbine.create ops gd t).xpos = t.xpos ∧
    (Turbine.create ops gd t).ypos = t.ypos ∧
    (Turbine.create ops gd t).hhub = t.hhub ∧
    (Turbine.create ops gd t).diam = t.diam := ⟨rfl, rfl, rfl, rfl⟩

/-- Length of a concatenation of constant-length rows. -/
theorem rows_concat_length {β : Type} (f : Nat → List β) (C : Nat)
    (hf : ∀ r, (f r).length = C) :
    ∀ R, (rows_concat f R).length = R * C
  | 0 => by simp [rows_concat]
  | R + 1 => by
    rw [rows_concat, List.length_append, rows_concat_length f C hf R, hf R]
    ring

/-- Row-major indexing into a concatenation of constant-length rows. -/
theorem rows_concat_getElem {β : Type} (f : Nat → List β) (C : Nat)
    (hf : ∀ r, (f r).length = C) :
    ∀ (R r c : Nat), r < R → c < C → (rows_concat f R)[r * C + c]? = (f r)[c]?
  | 0, _, _, hr, _ => absurd hr (Nat.not_lt_zero _)
  | R + 1, r, c, hr, hc => by
    rw [rows_concat]
    by_cases hrR : r < R
    · have hlen : r * C + c < (rows_concat f R).length := by
        rw [rows_concat_length f C hf R]
        calc r * C + c < r * C + C := by omega
          _ = (r + 1) * C := by ring
          _ ≤ R * C := Nat.mul_le_mul_right C (by omega)
      rw [List.getElem?_append_left hlen]
      exact rows_concat_getElem f C hf R r c hrR hc
    · have hrEq : r = R := by omega
      have hlen : (rows_concat f R).length ≤ r * C + c := by
        rw [rows_concat_length f C hf R, hrEq]
        omega
      rw [List.getElem?_append_right hlen, rows_concat_length f C hf R, hrEq]
      have : R * C + c - R * C = c := by omega
      rw [this]

/-- Mapping over a row concatenation maps each row. -/
theorem map_rows_concat {β γ : Type} (g : β → γ) (f : Nat → List β) :
    ∀ R, (rows_concat f R).map g = rows_concat (fun r => (f r).map g) R
  | 0 => rfl
  | R + 1 => by
    rw [rows_concat, List.map_append, map_rows_concat g f R]
    rfl

/-- The disk-average fold written as an accumulator plus a list sum. -/
theorem foldl_umean_eq_sum (cy sy : α) (fs : FlowState α) :
    ∀ (pairs : List (Nat × α)) (a : α),
      pairs.foldl (fun acc p => acc + p.2 * (fs.u p.1 * cy + fs.v p.1 * sy)) a =
      a + (pairs.map (fun p => p.2 * (fs.u p.1 * cy + fs.v p.1 * sy))).sum
  | [], a => by simp
  | p :: ps, a => by
    rw [List.foldl_cons, foldl_umean_eq_sum cy sy fs ps _, List.map_cons, List.sum_cons,
      add_assoc]

/-- `disk_avg` as a list sum. -/
theorem disk_avg_eq_sum (ops : MathOps α) (t : Turbine α) (fs : FlowState α) :
    disk_avg ops t fs =
      ((t.indices.zip t.weights).map
        (fun p => p.2 * (fs.u p.1 * ops.cos t.yaw + fs.v p.1 * ops.sin t.yaw))).sum := by
  unfold disk_avg
  rw [foldl_umean_eq_sum, zero_add]

/-- `disk_avg` after a yaw update is the specification sum over the
original footprint, evaluated at the post-update yaw angle. -/
theorem disk_avg_yaw_update (ops : MathOps α) (gd : GridData α) (t : Turbine α)
    (fs fsr : FlowState α) (time : α) :
    disk_avg ops (yaw_update ops gd t fsr time) fs =
      spec_umean ops t fs (yaw_update ops gd t fsr time).yaw := by
  rw [disk_avg_eq_sum, (yaw_update_fields ops gd t fsr time).1,
    (yaw_update_fields ops gd t fsr time).2.1]
  rfl

/-- The dynamic-yaw branch when enabled and due. -/
theorem yaw_update_pos (ops : MathOps α) (gd : GridData α) (t : Turbine α)
    (fs : FlowState α) (time : α) (h1 : t.swdynyaw = true) (h2 : t.next_yaw ≤ time) :
    yaw_update ops gd t fs time =
      { t with
        yaw := t.yaw + (ops.atan2 (fs.v (upstream_idx ops gd t))
          (fs.u (upstream_idx ops gd t)) - t.yaw) * (1/5 : α),
        next_yaw := t.next_yaw + t.yawperiod } := by
  unfold yaw_update
  rw [if_pos ⟨h1, h2⟩]

/-- The dynamic-yaw branch when disabled or not yet due. -/
theorem yaw_update_neg (ops : MathOps α) (gd : GridData α) (t : Turbine α)
    (fs : FlowState α) (time : α) (h : ¬(t.swdynyaw = true ∧ t.next_yaw ≤ time)) :
    yaw_update ops gd t fs time = t := by
  unfold yaw_update
  rw [if_neg h]

/-- Past the activation gate, the returned turbine is the yaw-updated
turbine with its cached power overwritten by the step's power value. -/
theorem exec_fst (ops : MathOps α) (gd : GridData α) (t : Turbine α)
    (fs : FlowState α) (time : α) (h : ¬ time < t.turbstarttime) :
    (Turbine.exec ops gd t fs time).1 =
      { yaw_update ops gd t fs time with
        power := (yaw_update ops gd t fs time).cp * (1/2 : α) *
          disk_avg ops (yaw_update ops gd t fs time) fs *
          disk_avg ops (yaw_update ops gd t fs time) fs *
          disk_avg ops (yaw_update ops gd t fs time) fs *
          (yaw_update ops gd t fs time).area } := by
  rw [Turbine.exec, if_neg h]
  rfl

/-- Past the activation gate, the returned flow state is the forcing loop
applied to the input state with the step's yaw and thrust. -/
theorem exec_snd (ops : MathOps α) (gd : GridData α) (t : Turbine α)
    (fs : FlowState α) (time : α) (h : ¬ time < t.turbstarttime) :
    (Turbine.exec ops gd t fs time).2 =
      apply_thrust ops (yaw_update ops gd t fs time).yaw
        ((1/2 : α) * (yaw_update ops gd t fs time).ct *
          disk_avg ops (yaw_update ops gd t fs time) fs *
          |disk_avg ops (yaw_update ops gd t fs time) fs|)
        ((yaw_update ops gd t fs time).indices.zip (yaw_update ops gd t fs time).weights)
        fs := by
  rw [Turbine.exec, if_neg h]
  rfl

/-- A member of a footprint `zip` has its index among the turbine's
indices. -/
theorem zip_fst_mem (l1 : List Nat) (l2 : List α) (j : Nat)
    (hj : j ∈ (l1.zip l2).map Prod.fst) : j ∈ l1 := by
  obtain ⟨pr, hpr, hj2⟩ := List.mem_map.1 hj
  rw [← hj2]
  exact (List.of_mem_zip hpr).1

/-- `add_turbines` returns an error exactly when some candidate fails the
boundary validation. -/
theorem add_turbines_error_iff (ops : MathOps α) (gd : GridData α)
    (cfg : TurbineConfig α) (cs : List (α × α × α)) :
    (add_turbines ops gd cfg cs).2 ≠ none ↔
      ∃ c ∈ cs, violates_bounds cfg.diam gd.xsize gd.ysize c = true := by
  rw [add_turbines_snd]
  by_cases hall : cs.all (fun c => !violates_bounds cfg.diam gd.xsize gd.ysize c) = true
  · rw [if_pos hall]
    rw [List.all_eq_true] at hall
    constructor
    · intro h
      exact absurd rfl h
    · rintro ⟨c, hc, hv⟩
      have := hall c hc
      rw [hv] at this
      exact absurd this (by decide)
  · rw [if_neg hall]
    constructor
    · intro _
      rw [List.all_eq_true] at hall
      push_neg at hall
      obtain ⟨c, hc, hnc⟩ := hall
      refine ⟨c, hc, ?_⟩
      cases hvb : violates_bounds cfg.diam gd.xsize gd.ysize c with
      | true => rfl
      | false =>
        rw [hvb] at hnc
        exact absurd rfl hnc
    · intro _ h
      exact Option.noConfusion h

/-- A member of a row concatenation lies in one of the rows. -/
theorem mem_rows_concat {β : Type} (f : Nat → List β) (x : β) :
    ∀ R, x ∈ rows_concat f R → ∃ r, r < R ∧ x ∈ f r
  | 0, h => absurd h (List.not_mem_nil x)
  | R + 1, h => by
    rw [rows_concat] at h
    rcases List.mem_append.1 h with hl | hr
    · obtain ⟨r, hrR, hx⟩ := mem_rows_concat f x R hl
      exact ⟨r, Nat.lt_succ_of_lt hrR, hx⟩
    · exact ⟨R, Nat.lt_succ_self R, hr⟩

/-- Every procedural candidate carries the hub-height override `-1`. -/
theorem procedural_candidates_hh (wcfg : WindfarmConfig α) (diam : α) (c : α × α × α)
    (hc : c ∈ procedural_candidates wcfg diam) : c.2.2 = (-1 : α) := by
  obtain ⟨r, _, hrow⟩ := mem_rows_concat _ c _ hc
  unfold row_candidates at hrow
  obtain ⟨cc, _, hcc⟩ := List.mem_map.1 hrow
  rw [← hcc]

/-- Each procedural row has exactly `nturbcols` candidates. -/
theorem row_candidates_length (wcfg : WindfarmConfig α) (diam : α) (r : Nat) :
    (row_candidates wcfg diam r).length = wcfg.nturbcols := by
  unfold row_candidates
  rw [List.length_map, List.length_range]

/-- Indexing a procedural row yields the position formula of the
source. -/
theorem row_candidates_getElem (wcfg : WindfarmConfig α) (diam : α) (r c : Nat)
    (hc : c < wcfg.nturbcols) :
    (row_candidates wcfg diam r)[c]? =
      some (wcfg.farmlocx + (c : α) * wcfg.spacingx * diam +
              (if wcfg.swstaggered = true ∧ r % 2 = 1 then
                (1/2 : α) * wcfg.spacingx * diam else 0),
            wcfg.farmlocy + (r : α) * wcfg.spacingy * diam, (-1 : α)) := by
  unfold row_candidates
  rw [List.getElem?_map, List.getElem?_range hc]
  rfl

/-! ### Claim theorems -/

/-- C5: a call of `Turbine::exec` with `time` strictly before the
activation time is a no-op — the returned turbine (power, yaw, next-yaw
time included) and the whole flow state are the unchanged inputs — while
a call with `time` exactly equal to the activation time is not skipped
and runs the full step body. -/
theorem C5_activation_gate (ops : MathOps α) (gd : GridData α) (t : Turbine α)
    (fs : FlowState α) (time : α) (h : time < t.turbstarttime) :
    Turbine.exec ops gd t fs time = (t, fs) ∧
    Turbine.exec ops gd t fs t.turbstarttime =
      Turbine.exec_body ops gd t fs t.turbstarttime := by
  constructor
  · rw [Turbine.exec, if_pos h]
  · rw [Turbine.exec, if_neg (lt_irrefl t.turbstarttime)]

/-- Witness for C5 at a concrete instance: time `-1` is before the
activation time `0` of the concrete turbine, and the call is a no-op. -/
theorem C5_activation_gate_witness :
    ((-1 : ℚ) < qTurb.turbstarttime) ∧
    (Turbine.exec qOps qGrid qTurb qFS1 (-1) = (qTurb, qFS1) ∧
     Turbine.exec qOps qGrid qTurb qFS1 qTurb.turbstarttime =
       Turbine.exec_body qOps qGrid qTurb qFS1 qTurb.turbstarttime) :=
  ⟨by norm_num [qTurb, Turbine.create, Turbine.init, qCfg],
   C5_activation_gate qOps qGrid qTurb qFS1 (-1)
     (by norm_num [qTurb, Turbine.create, Turbine.init, qCfg])⟩

/-- C2: after `Windfarm::exec`, the farm aggregate power equals the sum,
over the turbines in collection order, of the power each turbine reports
from its step call made during that same call (the returned turbines are
exactly the stepped ones, threaded through the shared flow state), and
the accumulator is reset at the start of the call, so the result does not
depend on the previous `farm_power`. -/
theorem C2_farm_power_sum (ops : MathOps α) (gd : GridData α) (w : Windfarm α)
    (fs : FlowState α) (time : α) :
    (Windfarm.exec ops gd w fs time).1.farm_power =
      (((Windfarm.exec ops gd w fs time).1.turbines).map
        (fun s : Turbine α => s.power)).sum ∧
    (Windfarm.exec ops gd w fs time).1.turbines = (exec_each ops gd time w.turbines fs).1 ∧
    (Windfarm.exec ops gd w fs time).2 = (exec_each ops gd time w.turbines fs).2 ∧
    ∀ p : α, Windfarm.exec ops gd ⟨w.turbines, p⟩ fs time = Windfarm.exec ops gd w fs time := by
  have h := windfarm_foldl_spec ops gd time w.turbines [] fs 0
  refine ⟨?_, ?_, ?_, fun p => rfl⟩
  · simp only [Windfarm.exec]
    rw [h]
    simp
  · simp only [Windfarm.exec]
    rw [h]
    simp
  · simp only [Windfarm.exec]
    rw [h]

/-- C9: for a fixed grid and position, enlarging the diameter never
shrinks the footprint: with `t.diam ≤ d2`, the cell count of the
footprint computed by `create` at diameter `t.diam` is at most the one
computed at diameter `d2`. -/
theorem C9_footprint_monotone (ops : MathOps α) (gd : GridData α) (t : Turbine α)
    (d2 : α) (h : t.diam ≤ d2) :
    (Turbine.create ops gd t).indices.length ≤
      (Turbine.create ops gd { t with diam := d2 }).indices.length := by
  rw [create_indices_eq, create_indices_eq, List.length_map, List.length_map]
  apply length_filter_mono
  intro p hp
  unfold in_disk at hp ⊢
  rw [decide_eq_true_iff] at hp ⊢
  have h2 : ((1 : α)/2) ≥ 0 := by norm_num
  calc ops.sqrt (cell_r2 gd { t with diam := d2 } p)
      = ops.sqrt (cell_r2 gd t p) := rfl
    _ ≤ t.diam * (1/2 : α) := hp
    _ ≤ d2 * (1/2 : α) := mul_le_mul_of_nonneg_right h h2

/-- Witness for C9 at a concrete instance: diameter 1 versus 2 on the
concrete grid. -/
theorem C9_footprint_monotone_witness :
    (Turbine.init qOps qCfg 1 0 (-1)).diam ≤ (2 : ℚ) ∧
    (Turbine.create qOps qGrid (Turbine.init qOps qCfg 1 0 (-1))).indices.length ≤
      (Turbine.create qOps qGrid
        { Turbine.init qOps qCfg 1 0 (-1) with diam := 2 }).indices.length :=
  ⟨by norm_num [Turbine.init, qCfg],
   C9_footprint_monotone qOps qGrid (Turbine.init qOps qCfg 1 0 (-1)) 2
     (by norm_num [Turbine.init, qCfg])⟩

/-- C3: provided the exponential is positive (as the real `exp` is), a
footprint built by `create` has weights summing exactly to 1 whenever
some scanned cell centre lies within the rotor radius, and each stored
weight is the Gaussian `exp(-6*r2/Delta^2)` divided by the total (hence
proportional to it); when no cell lies within the radius, both the index
and the weight lists are left empty, so no normalisation (and no division)
happens; and `exec` never mutates the footprint of any turbine. -/
theorem C3_footprint_invariant (ops : MathOps α) (gd : GridData α) (t : Turbine α)
    (hexp : ∀ z : α, 0 < ops.exp z) :
    ((∃ p ∈ grid_cells gd, in_disk ops gd t p = true) →
      (Turbine.create ops gd t).weights.sum = 1 ∧
      (Turbine.create ops gd t).weights =
        ((grid_cells gd).filter (in_disk ops gd t)).map
          (fun p => gauss_weight ops gd t p /
            (((grid_cells gd).filter (in_disk ops gd t)).map (gauss_weight ops gd t)).sum)) ∧
    ((¬ ∃ p ∈ grid_cells gd, in_disk ops gd t p = true) →
      (Turbine.create ops gd t).indices = [] ∧ (Turbine.create ops gd t).weights = []) ∧
    (∀ (t2 : Turbine α) (fs : FlowState α) (time : α),
      (Turbine.exec ops gd t2 fs time).1.indices = t2.indices ∧
      (Turbine.exec ops gd t2 fs time).1.weights = t2.weights) := by
  refine ⟨?_, ?_, fun t2 fs time => exec_footprint ops gd t2 fs time⟩
  · rintro ⟨p, hp, hd⟩
    have hmem : p ∈ (grid_cells gd).filter (in_disk ops gd t) :=
      List.mem_filter.2 ⟨hp, hd⟩
    have hW : gauss_weight ops gd t p ∈
        ((grid_cells gd).filter (in_disk ops gd t)).map (gauss_weight ops gd t) :=
      List.mem_map_of_mem (gauss_weight ops gd t) hmem
    have hpos : ∀ w ∈ ((grid_cells gd).filter (in_disk ops gd t)).map (gauss_weight ops gd t),
        0 < w := by
      intro w hw
      obtain ⟨q, _, hq⟩ := List.mem_map.1 hw
      rw [← hq]
      exact hexp _
    have hsum : 0 < (((grid_cells gd).filter (in_disk ops gd t)).map
        (gauss_weight ops gd t)).sum :=
      List.sum_pos _ hpos (List.ne_nil_of_mem hW)
    rw [create_weights_eq, if_pos hsum]
    constructor
    · rw [sum_map_div]
      exact div_self (ne_of_gt hsum)
    · rw [List.map_map]
      rfl
  · intro hno
    have hfil : (grid_cells gd).filter (in_disk ops gd t) = [] := by
      rw [List.filter_eq_nil_iff]
      intro q hq hdq
      exact hno ⟨q, hq, hdq⟩
    constructor
    · rw [create_indices_eq, hfil, List.map_nil]
    · rw [create_weights_eq, hfil, List.map_nil]
      simp

/-- The cell `(1, 0)` of the concrete grid lies within the rotor radius
of the concrete turbine at `(1, 0)` (its centre distance is zero). -/
theorem qcell_in_disk :
    in_disk qOps qGrid (Turbine.init qOps qCfg 1 0 (-1)) (1, 0) = true := by
  simp only [in_disk, decide_eq_true_eq]
  norm_num [cell_r2, qOps, qGrid, Turbine.init, qCfg]

/-- Witness for C3 at a concrete instance: the concrete exponential is
positive everywhere, one cell centre of the concrete grid lies within the
rotor radius, and the resulting weights sum to 1. -/
theorem C3_footprint_invariant_witness :
    (∀ z : ℚ, 0 < qOps.exp z) ∧
    ((1, 0) ∈ grid_cells qGrid ∧
      in_disk qOps qGrid (Turbine.init qOps qCfg 1 0 (-1)) (1, 0) = true) ∧
    (Turbine.create qOps qGrid (Turbine.init qOps qCfg 1 0 (-1))).weights.sum = 1 :=
  ⟨fun _ => one_pos, ⟨by decide, qcell_in_disk⟩,
   ((C3_footprint_invariant qOps qGrid (Turbine.init qOps qCfg 1 0 (-1))
       (fun _ => one_pos)).1 ⟨(1, 0), by decide, qcell_in_disk⟩).1⟩

/-- The concrete turbine in explicit form: its footprint is the single
flattened index 1 with weight 1, the hub level is 0, and the area is
`pi*1*1/4 = 3/4` with the concrete `pi = 3`. -/
theorem qTurb_eq :
    qTurb = { diam := 1, hhub := 0, ct := 1, cp := 1, tsr := 1, swdynyaw := true,
              yawperiod := 1, turbstarttime := 0, xpos := 1, ypos := 0, yaw := 0,
              next_yaw := 0, area := 3/4, k_hub := 0, indices := [1], weights := [1],
              power := 0 } := by
  have hcells : grid_cells qGrid = [(0, 0), (1, 0)] := by decide
  have h00 : in_disk qOps qGrid (Turbine.init qOps qCfg 1 0 (-1)) (0, 0) = false := by
    simp only [in_disk, decide_eq_false_iff_not]
    norm_num [cell_r2, qOps, qGrid, Turbine.init, qCfg]
  simp only [qTurb, Turbine.create, hcells, List.filter_cons, h00, qcell_in_disk]
  norm_num [Turbine.init, qCfg, qGrid, qOps, gauss_weight, cell_r2, nearest_index]

/-- Past the activation gate, the returned yaw is the yaw-updated
angle. -/
theorem exec_yaw (ops : MathOps α) (gd : GridData α) (t : Turbine α)
    (fs : FlowState α) (time : α) (h : ¬ time < t.turbstarttime) :
    (Turbine.exec ops gd t fs time).1.yaw = (yaw_update ops gd t fs time).yaw := by
  rw [exec_fst ops gd t fs time h]

/-- Past the activation gate, the returned yaw schedule is the
yaw-updated one. -/
theorem exec_next_yaw (ops : MathOps α) (gd : GridData α) (t : Turbine α)
    (fs : FlowState α) (time : α) (h : ¬ time < t.turbstarttime) :
    (Turbine.exec ops gd t fs time).1.next_yaw =
      (yaw_update ops gd t fs time).next_yaw := by
  rw [exec_fst ops gd t fs time h]

/-- Past the activation gate, the cached power in code shape. -/
theorem exec_power_eq (ops : MathOps α) (gd : GridData α) (t : Turbine α)
    (fs : FlowState α) (time : α) (h : ¬ time < t.turbstarttime) :
    (Turbine.exec ops gd t fs time).1.power =
      (yaw_update ops gd t fs time).cp * (1/2 : α) *
        disk_avg ops (yaw_update ops gd t fs time) fs *
        disk_avg ops (yaw_update ops gd t fs time) fs *
        disk_avg ops (yaw_update ops gd t fs time) fs *
        (yaw_update ops gd t fs time).area := by
  rw [exec_fst ops gd t fs time h]

/-- C1: for a call of `Turbine::exec` at or after the activation time
(on a turbine whose footprint lists are aligned and duplicate-free, as
`create` builds them), the cached power is `cp*0.5*v*v*v*area` where `v`
is the disk-averaged velocity — the weighted sum of
`u*cos(yaw) + v*sin(yaw)` over the footprint at the post-yaw-update yaw
angle; every footprint cell has `thrust*weight*cos(yaw)` subtracted from
`u` and `thrust*weight*sin(yaw)` subtracted from `v`, with
`thrust = 0.5*ct*v*|v|`; indices outside the footprint are untouched; an
empty footprint yields zero disk velocity, zero power and an unchanged
flow state; and the thrust formula is negative for reversed flow when
`ct` is positive. -/
theorem C1_exec_step (ops : MathOps α) (gd : GridData α) (t : Turbine α)
    (fs : FlowState α) (time : α)
    (hstart : t.turbstarttime ≤ time)
    (hlen : t.indices.length = t.weights.length)
    (hnd : t.indices.Nodup) :
    (Turbine.exec ops gd t fs time).1.power =
      t.cp * (1/2 : α) * spec_umean ops t fs (Turbine.exec ops gd t fs time).1.yaw *
        spec_umean ops t fs (Turbine.exec ops gd t fs time).1.yaw *
        spec_umean ops t fs (Turbine.exec ops gd t fs time).1.yaw * t.area ∧
    (∀ pr ∈ t.indices.zip t.weights,
      (Turbine.exec ops gd t fs time).2.u pr.1 =
        fs.u pr.1 -
          spec_thrust t.ct (spec_umean ops t fs (Turbine.exec ops gd t fs time).1.yaw) *
            pr.2 * ops.cos (Turbine.exec ops gd t fs time).1.yaw ∧
      (Turbine.exec ops gd t fs time).2.v pr.1 =
        fs.v pr.1 -
          spec_thrust t.ct (spec_umean ops t fs (Turbine.exec ops gd t fs time).1.yaw) *
            pr.2 * ops.sin (Turbine.exec ops gd t fs time).1.yaw) ∧
    (∀ j, j ∉ t.indices →
      (Turbine.exec ops gd t fs time).2.u j = fs.u j ∧
      (Turbine.exec ops gd t fs time).2.v j = fs.v j) ∧
    (t.indices = [] →
      spec_umean ops t fs (Turbine.exec ops gd t fs time).1.yaw = 0 ∧
      (Turbine.exec ops gd t fs time).1.power = 0 ∧
      (Turbine.exec ops gd t fs time).2 = fs) ∧
    (∀ v : α, v < 0 → 0 < t.ct → spec_thrust t.ct v < 0) := by
  have hlt : ¬ time < t.turbstarttime := not_lt.2 hstart
  have yf := yaw_update_fields ops gd t fs time
  have hmapfst : ((t.indices.zip t.weights).map Prod.fst) = t.indices :=
    List.map_fst_zip t.indices t.weights (le_of_eq hlen)
  refine ⟨?_, ?_, ?_, ?_, ?_⟩
  · rw [exec_power_eq ops gd t fs time hlt, exec_yaw ops gd t fs time hlt,
      disk_avg_yaw_update, yf.2.2.2.1, yf.2.2.2.2.1]
  · intro pr hpr
    rw [exec_snd ops gd t fs time hlt, exec_yaw ops gd t fs time hlt,
      disk_avg_yaw_update, yf.1, yf.2.1, yf.2.2.1]
    have hnd2 : ((t.indices.zip t.weights).map Prod.fst).Nodup := by
      rw [hmapfst]
      exact hnd
    have hv := apply_thrust_values ops (yaw_update ops gd t fs time).yaw
      ((1/2 : α) * t.ct * spec_umean ops t fs (yaw_update ops gd t fs time).yaw *
        |spec_umean ops t fs (yaw_update ops gd t fs time).yaw|)
      (t.indices.zip t.weights) fs hnd2 pr hpr
    exact ⟨hv.1, hv.2⟩
  · intro j hj
    rw [exec_snd ops gd t fs time hlt, yf.1, yf.2.1]
    refine apply_thrust_untouched ops _ _ (t.indices.zip t.weights) fs j ?_
    intro hmem
    exact hj (zip_fst_mem t.indices t.weights j hmem)
  · intro hempty
    have hzip : t.indices.zip t.weights = ([] : List (Nat × α)) := by
      rw [hempty]
      rfl
    have humean : spec_umean ops t fs (Turbine.exec ops gd t fs time).1.yaw = 0 := by
      unfold spec_umean
      rw [hzip]
      rfl
    refine ⟨humean, ?_, ?_⟩
    · rw [exec_power_eq ops gd t fs time hlt, disk_avg_yaw_update]
      rw [exec_yaw ops gd t fs time hlt] at humean
      rw [humean]
      ring
    · rw [exec_snd ops gd t fs time hlt, yf.1, yf.2.1, hzip]
      rfl
  · intro v hv hct
    unfold spec_thrust
    have h1 : (0 : α) < (1/2 : α) * t.ct := by
      have : (0 : α) < (1/2 : α) := by norm_num
      exact mul_pos this hct
    have h2 : (0 : α) < |v| := abs_pos.2 (ne_of_lt hv)
    have h3 : (1/2 : α) * t.ct * v < 0 := mul_neg_of_pos_of_neg h1 hv
    exact mul_neg_of_neg_of_pos h3 h2

/-- Witness for C1 at a concrete instance: the concrete turbine is
active at time 0, its footprint lists are aligned and duplicate-free,
and the flow entry at the unaffected index 5 is untouched by the step. -/
theorem C1_exec_step_witness :
    qTurb.turbstarttime ≤ (0 : ℚ) ∧
    qTurb.indices.length = qTurb.weights.length ∧ qTurb.indices.Nodup ∧
    (Turbine.exec qOps qGrid qTurb qFS1 0).2.u 5 = qFS1.u 5 :=
  ⟨by simp [qTurb_eq], by simp [qTurb_eq], by simp [qTurb_eq],
   ((C1_exec_step qOps qGrid qTurb qFS1 0 (by simp [qTurb_eq]) (by simp [qTurb_eq])
      (by simp [qTurb_eq])).2.2.1 5 (by simp [qTurb_eq])).1⟩

/-- C6: with dynamic yaw enabled, the turbine active, and the schedule
due, `exec` moves the yaw exactly 20% of the way from its old value
toward `atan2(v_sample, u_sample)` sampled at the upstream index, and
advances the next update time by exactly the yaw period (added to its
previous value, not reset to `time + period`); the indices used for the
sample are nearest, independently per axis, to the point one diameter
upstream along the old yaw direction; and when dynamic yaw is disabled
or the schedule is not due, yaw and schedule are unchanged. -/
theorem C6_dynamic_yaw (ops : MathOps α) (gd : GridData α) (t : Turbine α)
    (fs : FlowState α) (time : α)
    (hstart : t.turbstarttime ≤ time)
    (hdyn : t.swdynyaw = true)
    (hsched : t.next_yaw ≤ time) :
    (Turbine.exec ops gd t fs time).1.yaw =
      t.yaw + (1/5 : α) * (ops.atan2 (fs.v (upstream_idx ops gd t))
        (fs.u (upstream_idx ops gd t)) - t.yaw) ∧
    (Turbine.exec ops gd t fs time).1.next_yaw = t.next_yaw + t.yawperiod ∧
    (∀ i, gd.istart ≤ i → i < gd.iend →
      |gd.x (nearest_index (t.xpos - t.diam * ops.cos t.yaw) gd.x gd.istart gd.iend) -
        (t.xpos - t.diam * ops.cos t.yaw)| ≤
      |gd.x i - (t.xpos - t.diam * ops.cos t.yaw)|) ∧
    (∀ j, gd.jstart ≤ j → j < gd.jend →
      |gd.y (nearest_index (t.ypos - t.diam * ops.sin t.yaw) gd.y gd.jstart gd.jend) -
        (t.ypos - t.diam * ops.sin t.yaw)| ≤
      |gd.y j - (t.ypos - t.diam * ops.sin t.yaw)|) ∧
    (∀ (t2 : Turbine α) (fs2 : FlowState α) (time2 : α),
      ¬(t2.swdynyaw = true ∧ t2.next_yaw ≤ time2) →
      (Turbine.exec ops gd t2 fs2 time2).1.yaw = t2.yaw ∧
      (Turbine.exec ops gd t2 fs2 time2).1.next_yaw = t2.next_yaw) := by
  have hlt : ¬ time < t.turbstarttime := not_lt.2 hstart
  refine ⟨?_, ?_, ?_, ?_, ?_⟩
  · rw [exec_yaw ops gd t fs time hlt, yaw_update_pos ops gd t fs time hdyn hsched]
    dsimp only
    ring
  · rw [exec_next_yaw ops gd t fs time hlt, yaw_update_pos ops gd t fs time hdyn hsched]
  · intro i h1 h2
    exact nearest_index_min _ gd.x gd.istart gd.iend i h1 h2
  · intro j h1 h2
    exact nearest_index_min _ gd.y gd.jstart gd.jend j h1 h2
  · intro t2 fs2 time2 hneg
    by_cases hskip : time2 < t2.turbstarttime
    · rw [Turbine.exec, if_pos hskip]
      exact ⟨rfl, rfl⟩
    · rw [exec_yaw ops gd t2 fs2 time2 hskip, exec_next_yaw ops gd t2 fs2 time2 hskip,
        yaw_update_neg ops gd t2 fs2 time2 hneg]
      exact ⟨rfl, rfl⟩

/-- Witness for C6 at a concrete instance: the concrete turbine is
active and due at time 0, and its new yaw follows the relaxation
formula. -/
theorem C6_dynamic_yaw_witness :
    qTurb.turbstarttime ≤ (0 : ℚ) ∧ qTurb.swdynyaw = true ∧ qTurb.next_yaw ≤ 0 ∧
    (Turbine.exec qOps qGrid qTurb qFS2 0).1.yaw =
      qTurb.yaw + (1/5 : ℚ) * (qOps.atan2 (qFS2.v (upstream_idx qOps qGrid qTurb))
        (qFS2.u (upstream_idx qOps qGrid qTurb)) - qTurb.yaw) :=
  ⟨by simp [qTurb_eq], by simp [qTurb_eq], by simp [qTurb_eq],
   (C6_dynamic_yaw qOps qGrid qTurb qFS2 0 (by simp [qTurb_eq]) (by simp [qTurb_eq])
     (by simp [qTurb_eq])).1⟩

/-- If the yaw-update results coincide and the input flow states agree on
the footprint, the whole step result coincides on the turbine and agrees
on the footprint. -/
theorem exec_congr_of_yaw_eq (ops : MathOps α) (gd : GridData α) (t : Turbine α)
    (fs fs2 : FlowState α) (time : α)
    (hyw : yaw_update ops gd t fs time = yaw_update ops gd t fs2 time)
    (hag : agree_on t.indices fs fs2) :
    (Turbine.exec ops gd t fs time).1 = (Turbine.exec ops gd t fs2 time).1 ∧
    agree_on t.indices (Turbine.exec ops gd t fs time).2
      (Turbine.exec ops gd t fs2 time).2 := by
  by_cases hskip : time < t.turbstarttime
  · rw [Turbine.exec, Turbine.exec, if_pos hskip, if_pos hskip]
    exact ⟨rfl, hag⟩
  · have yf := yaw_update_fields ops gd t fs time
    have havg : disk_avg ops (yaw_update ops gd t fs time) fs =
        disk_avg ops (yaw_update ops gd t fs time) fs2 :=
      disk_avg_congr ops _ fs fs2 (by rw [yf.1]; exact hag)
    constructor
    · rw [exec_fst ops gd t fs time hskip, exec_fst ops gd t fs2 time hskip, ← hyw, ← havg]
    · rw [exec_snd ops gd t fs time hskip, exec_snd ops gd t fs2 time hskip, ← hyw, ← havg,
        yf.1, yf.2.1]
      exact apply_thrust_congr ops _ _ t.indices (t.indices.zip t.weights) fs fs2
        (fun pr hpr => (List.of_mem_zip hpr).1) hag

/-- C4 counterexample: with dynamic yaw enabled, `Turbine::exec` reads a
flow index outside the precomputed footprint.  The two concrete flow
states agree on every footprint index of the concrete turbine, yet the
step results differ (already in the resulting yaw angle), so the set of
indices the call reads is not contained in the footprint list. -/
theorem C4_upstream_read_outside_footprint :
    (∀ j ∈ qTurb.indices, qFS1.u j = qFS2.u j ∧ qFS1.v j = qFS2.v j) ∧
    (Turbine.exec qOps qGrid qTurb qFS1 0).1.yaw ≠
      (Turbine.exec qOps qGrid qTurb qFS2 0).1.yaw := by
  constructor
  · intro j hj
    rw [qTurb_eq] at hj
    simp only [List.mem_singleton] at hj
    subst hj
    exact ⟨rfl, by norm_num [qFS1, qFS2]⟩
  · have hups : upstream_idx qOps qGrid qTurb = 0 := by
      rw [qTurb_eq]
      norm_num [upstream_idx, nearest_index, qGrid, qOps, List.range'_one]
    have hdyn : qTurb.swdynyaw = true := by simp [qTurb_eq]
    have hsched : qTurb.next_yaw ≤ (0 : ℚ) := by simp [qTurb_eq]
    have hlt : ¬ (0 : ℚ) < qTurb.turbstarttime := by simp [qTurb_eq]
    rw [exec_yaw qOps qGrid qTurb qFS1 0 hlt, exec_yaw qOps qGrid qTurb qFS2 0 hlt,
      yaw_update_pos qOps qGrid qTurb qFS1 0 hdyn hsched,
      yaw_update_pos qOps qGrid qTurb qFS2 0 hdyn hsched, hups]
    dsimp only
    rw [qTurb_eq]
    norm_num [qOps, qFS1, qFS2]

/-- C4 (amended): every index `exec` writes lies in the precomputed
footprint list; when the dynamic-yaw branch does not trigger, the result
depends only on the flow values at footprint indices; when it does
trigger, the call additionally reads exactly the one upstream sample
index — fixing its two values, the result again depends only on the
footprint values — and that sample index need not belong to the
footprint. -/
theorem C4_frame (ops : MathOps α) (gd : GridData α) (t : Turbine α)
    (fs fs2 : FlowState α) (time : α) :
    (∀ j, j ∉ t.indices →
      (Turbine.exec ops gd t fs time).2.u j = fs.u j ∧
      (Turbine.exec ops gd t fs time).2.v j = fs.v j) ∧
    (¬(t.swdynyaw = true ∧ t.next_yaw ≤ time) → agree_on t.indices fs fs2 →
      (Turbine.exec ops gd t fs time).1 = (Turbine.exec ops gd t fs2 time).1 ∧
      agree_on t.indices (Turbine.exec ops gd t fs time).2
        (Turbine.exec ops gd t fs2 time).2) ∧
    ((t.swdynyaw = true ∧ t.next_yaw ≤ time) → agree_on t.indices fs fs2 →
      fs.u (upstream_idx ops gd t) = fs2.u (upstream_idx ops gd t) →
      fs.v (upstream_idx ops gd t) = fs2.v (upstream_idx ops gd t) →
      (Turbine.exec ops gd t fs time).1 = (Turbine.exec ops gd t fs2 time).1 ∧
      agree_on t.indices (Turbine.exec ops gd t fs time).2
        (Turbine.exec ops gd t fs2 time).2) := by
  refine ⟨?_, ?_, ?_⟩
  · intro j hj
    by_cases hskip : time < t.turbstarttime
    · rw [Turbine.exec, if_pos hskip]
      exact ⟨rfl, rfl⟩
    · have yf := yaw_update_fields ops gd t fs time
      rw [exec_snd ops gd t fs time hskip, yf.1, yf.2.1]
      refine apply_thrust_untouched ops _ _ (t.indices.zip t.weights) fs j ?_
      intro hmem
      exact hj (zip_fst_mem t.indices t.weights j hmem)
  · intro hneg hag
    exact exec_congr_of_yaw_eq ops gd t fs fs2 time
      (by rw [yaw_update_neg ops gd t fs time hneg, yaw_update_neg ops gd t fs2 time hneg])
      hag
  · rintro ⟨hdyn, hsched⟩ hag hu hv
    exact exec_congr_of_yaw_eq ops gd t fs fs2 time
      (by rw [yaw_update_pos ops gd t fs time hdyn hsched,
        yaw_update_pos ops gd t fs2 time hdyn hsched, hu, hv])
      hag

/-- Witness for the amended C4 at a concrete instance: index 7 is outside
the concrete footprint and is untouched by the step. -/
theorem C4_frame_witness :
    (7 ∉ qTurb.indices) ∧ (Turbine.exec qOps qGrid qTurb qFS1 0).2.u 7 = qFS1.u 7 :=
  ⟨by simp [qTurb_eq],
   ((C4_frame qOps qGrid qTurb qFS1 qFS2 0).1 7 (by simp [qTurb_eq])).1⟩

/-- C7: `Windfarm::create` fails with a message exactly when a
candidate's disk crosses a horizontal domain edge (in particular
whenever `x - 0.5*diam < 0`) or when a non-empty layout-file path cannot
be opened; either failure aborts the whole call (the error is returned
at once), and every turbine accepted before the failing candidate — the
longest validated prefix — remains in the collection. -/
theorem C7_create_errors (ops : MathOps α) (gd : GridData α) (cfg : TurbineConfig α)
    (wcfg : WindfarmConfig α) (fsys : String → Option (List (α × α × α)))
    (hne : wcfg.layoutfile ≠ "") :
    (fsys wcfg.layoutfile = none →
      Windfarm.create ops gd cfg wcfg fsys =
        ([], some ("Cannot open layout file " ++ wcfg.layoutfile))) ∧
    (∀ ls, fsys wcfg.layoutfile = some ls →
      (((Windfarm.create ops gd cfg wcfg fsys).2 ≠ none ↔
        ∃ c ∈ ls, violates_bounds cfg.diam gd.xsize gd.ysize c = true) ∧
       (Windfarm.create ops gd cfg wcfg fsys).1 =
         (ls.takeWhile (fun c => !violates_bounds cfg.diam gd.xsize gd.ysize c)).map
           (mk_turbine ops gd cfg))) ∧
    (∀ (wcfg2 : WindfarmConfig α), wcfg2.layoutfile = "" →
      (((Windfarm.create ops gd cfg wcfg2 fsys).2 ≠ none ↔
        ∃ c ∈ procedural_candidates wcfg2 cfg.diam,
          violates_bounds cfg.diam gd.xsize gd.ysize c = true) ∧
       (Windfarm.create ops gd cfg wcfg2 fsys).1 =
         ((procedural_candidates wcfg2 cfg.diam).takeWhile
           (fun c => !violates_bounds cfg.diam gd.xsize gd.ysize c)).map
             (mk_turbine ops gd cfg))) ∧
    (∀ c : α × α × α, c.1 - (1/2 : α) * cfg.diam < 0 →
      violates_bounds cfg.diam gd.xsize gd.ysize c = true) := by
  refine ⟨?_, ?_, ?_, ?_⟩
  · intro hnone
    rw [Windfarm.create, if_neg hne, hnone]
  · intro ls hsome
    rw [Windfarm.create, if_neg hne, hsome]
    exact ⟨add_turbines_error_iff ops gd cfg ls, add_turbines_fst ops gd cfg ls⟩
  · intro wcfg2 hempty
    rw [Windfarm.create, if_pos hempty]
    exact ⟨add_turbines_error_iff ops gd cfg _, add_turbines_fst ops gd cfg _⟩
  · intro c hc
    unfold violates_bounds
    rw [decide_eq_true hc]
    rfl

/-- Witness for C7 at a concrete instance: the file-mode configuration
with an unopenable file aborts with the message and an empty
collection. -/
theorem C7_create_errors_witness :
    qWcfgFile.layoutfile ≠ "" ∧ fsysNone qWcfgFile.layoutfile = none ∧
    Windfarm.create qOps qGrid qCfg qWcfgFile fsysNone =
      ([], some ("Cannot open layout file " ++ qWcfgFile.layoutfile)) :=
  ⟨by decide, rfl,
   (C7_create_errors qOps qGrid qCfg qWcfgFile fsysNone (by decide)).1 rfl⟩

/-- C8: in procedural mode (empty layout-file path) with every candidate
passing the boundary validation, `Windfarm::create` succeeds and yields
exactly `nturbrows * nturbcols` turbines in row-major order; the turbine
of row `r`, column `c` sits at
`(farmlocx + c*spacingx*diam + stagger, farmlocy + r*spacingy*diam)`
where the stagger offset `0.5*spacingx*diam` applies exactly to odd rows
with staggering enabled; the built turbine really sits at the candidate
position; and every procedural turbine keeps the configured default hub
height, the override being `-1`. -/
theorem C8_procedural_layout (ops : MathOps α) (gd : GridData α) (cfg : TurbineConfig α)
    (wcfg : WindfarmConfig α) (fsys : String → Option (List (α × α × α)))
    (hpath : wcfg.layoutfile = "")
    (hok : ∀ c ∈ procedural_candidates wcfg cfg.diam,
      violates_bounds cfg.diam gd.xsize gd.ysize c = false) :
    (Windfarm.create ops gd cfg wcfg fsys).2 = none ∧
    (Windfarm.create ops gd cfg wcfg fsys).1.length =
      wcfg.nturbrows * wcfg.nturbcols ∧
    (∀ r c : Nat, r < wcfg.nturbrows → c < wcfg.nturbcols →
      ((Windfarm.create ops gd cfg wcfg fsys).1)[r * wcfg.nturbcols + c]? =
        some (mk_turbine ops gd cfg
          (wcfg.farmlocx + (c : α) * wcfg.spacingx * cfg.diam +
            (if wcfg.swstaggered = true ∧ r % 2 = 1 then
              (1/2 : α) * wcfg.spacingx * cfg.diam else 0),
           wcfg.farmlocy + (r : α) * wcfg.spacingy * cfg.diam, (-1 : α)))) ∧
    (∀ x y hh : α, (mk_turbine ops gd cfg (x, y, hh)).xpos = x ∧
      (mk_turbine ops gd cfg (x, y, hh)).ypos = y) ∧
    (∀ t ∈ (Windfarm.create ops gd cfg wcfg fsys).1, t.hhub = cfg.hhub) := by
  have hcreate : Windfarm.create ops gd cfg wcfg fsys =
      add_turbines ops gd cfg (procedural_candidates wcfg cfg.diam) := by
    rw [Windfarm.create, if_pos hpath]
  have hall : (procedural_candidates wcfg cfg.diam).all
      (fun c => !violates_bounds cfg.diam gd.xsize gd.ysize c) = true := by
    rw [List.all_eq_true]
    intro a ha
    rw [hok a ha]
    rfl
  have htake : (procedural_candidates wcfg cfg.diam).takeWhile
      (fun c => !violates_bounds cfg.diam gd.xsize gd.ysize c) =
      procedural_candidates wcfg cfg.diam := by
    rw [List.takeWhile_eq_self_iff]
    intro a ha
    rw [hok a ha]
    rfl
  have hfst : (Windfarm.create ops gd cfg wcfg fsys).1 =
      (procedural_candidates wcfg cfg.diam).map (mk_turbine ops gd cfg) := by
    rw [hcreate, add_turbines_fst, htake]
  refine ⟨?_, ?_, ?_, ?_, ?_⟩
  · rw [hcreate, add_turbines_snd, if_pos hall]
  · rw [hfst, List.length_map]
    unfold procedural_candidates
    exact rows_concat_length _ _ (row_candidates_length wcfg cfg.diam) _
  · intro r c hr hc
    rw [hfst, List.getElem?_map]
    unfold procedural_candidates
    rw [rows_concat_getElem (row_candidates wcfg cfg.diam) wcfg.nturbcols
      (row_candidates_length wcfg cfg.diam) wcfg.nturbrows r c hr hc]
    rw [row_candidates_getElem wcfg cfg.diam r c hc]
    rfl
  · intro x y hh
    exact ⟨rfl, rfl⟩
  · intro t ht
    rw [hfst] at ht
    obtain ⟨cand, hcand, hmk⟩ := List.mem_map.1 ht
    have hhh := procedural_candidates_hh wcfg cfg.diam cand hcand
    rw [← hmk]
    show (if cand.2.2 > 0 then cand.2.2 else cfg.hhub) = cfg.hhub
    rw [hhh, if_neg (by norm_num : ¬((-1 : α) > 0))]

/-- C10: a candidate whose disk is exactly tangent to a horizontal
domain edge (and crosses none strictly) passes the all-strict
validation: no boundary-violation error is raised and a turbine is added
at exactly that position. -/
theorem C10_tangent_accepted (ops : MathOps α) (gd : GridData α) (cfg : TurbineConfig α)
    (wcfg : WindfarmConfig α) (fsys : String → Option (List (α × α × α)))
    (x y hh : α)
    (hne : wcfg.layoutfile ≠ "")
    (hf : fsys wcfg.layoutfile = some [(x, y, hh)])
    (h1 : ¬ x - (1/2 : α) * cfg.diam < 0) (h2 : ¬ x + (1/2 : α) * cfg.diam > gd.xsize)
    (h3 : ¬ y - (1/2 : α) * cfg.diam < 0) (h4 : ¬ y + (1/2 : α) * cfg.diam > gd.ysize)
    (htang : x - (1/2 : α) * cfg.diam = 0 ∨ x + (1/2 : α) * cfg.diam = gd.xsize ∨
             y - (1/2 : α) * cfg.diam = 0 ∨ y + (1/2 : α) * cfg.diam = gd.ysize) :
    violates_bounds cfg.diam gd.xsize gd.ysize (x, y, hh) = false ∧
    Windfarm.create ops gd cfg wcfg fsys = ([mk_turbine ops gd cfg (x, y, hh)], none) ∧
    (mk_turbine ops gd cfg (x, y, hh)).xpos = x ∧
    (mk_turbine ops gd cfg (x, y, hh)).ypos = y := by
  have hviol : violates_bounds cfg.diam gd.xsize gd.ysize (x, y, hh) = false := by
    simp only [violates_bounds, decide_eq_false h1, decide_eq_false h2,
      decide_eq_false h3, decide_eq_false h4]
    rfl
  refine ⟨hviol, ?_, rfl, rfl⟩
  rw [Windfarm.create, if_neg hne, hf]
  simp [add_turbines, hviol]

/-- The procedural candidates of the concrete staggered 2-by-2 farm. -/
theorem qcand_eq :
    procedural_candidates qWcfg qCfg.diam =
      [(2, 2, -1), (3, 2, -1), (5/2, 3, -1), (7/2, 3, -1)] := by
  norm_num [procedural_candidates, rows_concat, row_candidates, qWcfg, qCfg,
    List.range_succ]

/-- Every concrete procedural candidate passes the boundary
validation on the concrete grid. -/
theorem qok : ∀ c ∈ procedural_candidates qWcfg qCfg.diam,
    violates_bounds qCfg.diam qGrid.xsize qGrid.ysize c = false := by
  intro c hc
  rw [qcand_eq] at hc
  simp only [List.mem_cons, List.not_mem_nil, or_false] at hc
  rcases hc with rfl | rfl | rfl | rfl
  all_goals
    simp only [violates_bounds, Bool.or_eq_false_iff, decide_eq_false_iff_not]
  all_goals norm_num [qGrid, qCfg]

/-- Witness for C8 at a concrete instance: the staggered 2-by-2 farm
builds without error and holds exactly `2 * 2` turbines. -/
theorem C8_procedural_layout_witness :
    qWcfg.layoutfile = "" ∧
    (∀ c ∈ procedural_candidates qWcfg qCfg.diam,
      violates_bounds qCfg.diam qGrid.xsize qGrid.ysize c = false) ∧
    (Windfarm.create qOps qGrid qCfg qWcfg fsysNone).2 = none ∧
    (Windfarm.create qOps qGrid qCfg qWcfg fsysNone).1.length =
      qWcfg.nturbrows * qWcfg.nturbcols :=
  ⟨rfl, qok,
   (C8_procedural_layout qOps qGrid qCfg qWcfg fsysNone rfl qok).1,
   (C8_procedural_layout qOps qGrid qCfg qWcfg fsysNone rfl qok).2.1⟩

/-- Witness for C10 at a concrete instance: a disk of diameter 2 at
`x = 1` is exactly tangent to the left domain edge and is accepted. -/
theorem C10_tangent_accepted_witness :
    qWcfgFile.layoutfile ≠ "" ∧
    fsysTangent qWcfgFile.layoutfile = some [(1, 5, -1)] ∧
    ¬ (1 : ℚ) - (1/2 : ℚ) * qCfgD2.diam < 0 ∧
    ((1 : ℚ) - (1/2 : ℚ) * qCfgD2.diam = 0 ∨
      (1 : ℚ) + (1/2 : ℚ) * qCfgD2.diam = qGrid.xsize ∨
      (5 : ℚ) - (1/2 : ℚ) * qCfgD2.diam = 0 ∨
      (5 : ℚ) + (1/2 : ℚ) * qCfgD2.diam = qGrid.ysize) ∧
    Windfarm.create qOps qGrid qCfgD2 qWcfgFile fsysTangent =
      ([mk_turbine qOps qGrid qCfgD2 (1, 5, -1)], none) :=
  ⟨by decide, rfl,
   by norm_num [qCfgD2, qCfg],
   Or.inl (by norm_num [qCfgD2, qCfg]),
   (C10_tangent_accepted qOps qGrid qCfgD2 qWcfgFile fsysTangent 1 5 (-1)
     (by decide) rfl
     (by norm_num [qCfgD2, qCfg])
     (by norm_num [qCfgD2, qCfg, qGrid])
     (by norm_num [qCfgD2, qCfg])
     (by norm_num [qCfgD2, qCfg, qGrid])
     (Or.inl (by norm_num [qCfgD2, qCfg]))).2.1⟩
